import Mathlib

/-!
Shallow embedding of the git-wrapper library (package `git`: `repo.go` and the
ref-model file) and verification of its specification claims.

Go strings are modelled as lists of characters (`Str`).  The external `git`
tool is modelled by explicit oracle parameters: a `Bool` saying whether the
invoked command's `Run()` returned nil, the enumerate-refs output as a list of
lines, and so on.  Every Go function that can `panic` returns an `Option`
(`none` = panic).  Each operation also reports the list of external commands
it invoked, so that "invokes no external command" claims are statable.
-/

set_option maxHeartbeats 1000000

/-- Go strings, modelled as lists of characters. -/
abbrev Str := List Char

/-- Split off the segment of `s` before the first occurrence of `c` and the
remainder after it; `none` when `c` does not occur.  Helper for `splitN`. -/
def splitFirst (c : Char) : Str → Option (Str × Str)
  | [] => none
  | x :: xs =>
    if x = c then some ([], xs)
    else (splitFirst c xs).map (fun p => (x :: p.1, p.2))

/-- Go `strings.SplitN(s, sep, n)` for a single-character separator and
`n ≥ 0`: at most `n` fields, the last field holding the unsplit remainder. -/
def splitN (c : Char) : Nat → Str → List Str
  | 0, _ => []
  | 1, s => [s]
  | n + 2, s =>
    match splitFirst c s with
    | none => [s]
    | some (a, b) => a :: splitN c (n + 1) b

/-- Last element of a list of strings with a default, as Go `k[len(k)-1]`
(total here; `splitN` with `n ≥ 1` never returns an empty list). -/
def lastElemD : List Str → Str → Str
  | [], d => d
  | [a], _ => a
  | _ :: b :: rest, d => lastElemD (b :: rest) d

/-- `Ref` from the source: a SHA plus a fully-qualified ref path.  The Go
struct's back-pointer to the owning `Repo` is replaced by passing the
repository state to each operation explicitly. -/
structure Ref where
  SHA : Str
  Path : Str
deriving DecidableEq, Repr

/-- `Ref.IsLocal`: `strings.HasPrefix(r.Path, "refs/heads/")`. -/
def Ref.IsLocal (r : Ref) : Bool := (("refs/heads/".data)).isPrefixOf r.Path

/-- `Ref.IsRemote`: `strings.HasPrefix(r.Path, "refs/remotes/")`. -/
def Ref.IsRemote (r : Ref) : Bool := (("refs/remotes/".data)).isPrefixOf r.Path

/-- `Ref.IsTag`: `strings.HasPrefix(r.Path, "refs/tags/")`. -/
def Ref.IsTag (r : Ref) : Bool := (("refs/tags/".data)).isPrefixOf r.Path

/-- `Ref.IsHead`: `r.Path == "HEAD"`. -/
def Ref.IsHead (r : Ref) : Bool := r.Path == ("HEAD".data)

/-- `Ref.IsRaw`: `r.SHA == r.Path`. -/
def Ref.IsRaw (r : Ref) : Bool := r.SHA == r.Path

/-- `Ref.Name`: `k := strings.SplitN(r.Path, "/", 3); return k[len(k)-1]`. -/
def Ref.Name (r : Ref) : Str := lastElemD (splitN '/' 3 r.Path) []

/-- `RefMap` (the Go `map[string]*Ref`), modelled as an association list where
the most recent insertion is found first. -/
abbrev RefMap := List (Str × Ref)

/-- Go map lookup `m[k]` (comma-ok form: `none` means absent). -/
def RefMap.find (m : RefMap) (k : Str) : Option Ref :=
  (m.find? (fun p => p.1 == k)).map Prod.snd

/-- Go map assignment `m[k] = v` (prepend; `RefMap.find` sees the newest). -/
def RefMap.insert (m : RefMap) (k : Str) (v : Ref) : RefMap := (k, v) :: m

/-- Go `delete(m, k)`. -/
def RefMap.erase (m : RefMap) (k : Str) : RefMap :=
  m.filter (fun p => !(p.1 == k))

/-- Errors returned by the Go code: either a formatted message
(`errors.New` / `fmt.Errorf`) or an opaque error from running
the external tool (`cmd.Run()`). -/
inductive GoErr where
  | msg : Str → GoErr
  | exec : GoErr
deriving DecidableEq, Repr

/-- Result of `Ref.Delete`: the returned error, the repository's ref cache
after the call, and the external commands that were invoked. -/
structure DeleteOut where
  err : Option GoErr
  refs : RefMap
  cmds : List (List Str)
deriving DecidableEq, Repr

/-- The `git {tag|branch} -d name` part of `Ref.Delete`: on success the entry
is removed from the cache, on failure the error propagates and the cache is
untouched. -/
def deleteRun (c : Str) (r : Ref) (refs : RefMap) (runOk : Bool) : DeleteOut :=
  if runOk then ⟨none, RefMap.erase refs (Ref.Name r), [[c, ("-d".data), Ref.Name r]]⟩
  else ⟨some GoErr.exec, refs, [[c, ("-d".data), Ref.Name r]]⟩

/-- `Ref.Delete` from the source.  `runOk` is the oracle for `cmd.Run()`
succeeding.  The outer `Option` models the `panic("Cannot happen!")` branch:
`none` means the process panics. -/
def Ref.Delete (r : Ref) (refs : RefMap) (runOk : Bool) : Option DeleteOut :=
  if r.IsRemote then some ⟨some (GoErr.msg ("Cannot delete a remote ref!".data)), refs, []⟩
  else if r.IsHead then some ⟨some (GoErr.msg ("Cannot delete HEAD!".data)), refs, []⟩
  else if r.IsTag then some (deleteRun ("tag".data) r refs runOk)
  else if r.IsLocal then some (deleteRun ("branch".data) r refs runOk)
  else none

/-- Result of `Repo.Ref`: the resolved ref, the error, and the external
commands invoked. -/
structure RefOut where
  res : Option Ref
  err : Option GoErr
  cmds : List (List Str)
deriving DecidableEq, Repr

/-- The `git rev-parse -q --verify <name>` invocation of `Repo.Ref`. -/
def revParseCmd (name : Str) : List Str :=
  [("rev-parse".data), ("-q".data), ("--verify".data), name]

/-- The prefix list of `Repo.Ref`, exactly as in the source: note the
missing trailing slash on `"refs/tags"` and `"refs/remotes"`. -/
def refPfxs : List Str :=
  [[], ("refs/heads/".data), ("refs/tags".data), ("refs/remotes".data)]

/-- The lookup loop of `Repo.Ref`: first prefix whose concatenation with the
name is a key of the cache wins. -/
def findSomeRef (refs : RefMap) (name : Str) : List Str → Option Ref
  | [] => none
  | p :: ps =>
    match RefMap.find refs (p ++ name) with
    | some r => some r
    | none => findSomeRef refs name ps

/-- `Repo.Ref` from the source, on an already-loaded cache.  `runOk` is the
oracle for `cmd.Run()` of `git rev-parse -q --verify` returning nil.  The
source reads `if cmd.Run() != nil { return &Ref{...}, nil }`, i.e. it
synthesizes the raw ref when verification FAILS and returns the
"No ref for" error when verification SUCCEEDS. -/
def Repo.RefLookup (refs : RefMap) (name : Str) (runOk : Bool) : RefOut :=
  match findSomeRef refs name refPfxs with
  | some r => ⟨some r, none, []⟩
  | none =>
    if runOk then ⟨none, some (GoErr.msg (("No ref for ".data) ++ name)), [revParseCmd name]⟩
    else ⟨some ⟨name, name⟩, none, [revParseCmd name]⟩

/-- Whitespace test used by `strings.TrimSpace` (ASCII part). -/
def isSpaceChar (c : Char) : Bool :=
  c == ' ' || c == '\t' || c == '\n' || c == '\r'

/-- Go `strings.TrimSpace`. -/
def trimSpace (s : Str) : Str :=
  ((s.dropWhile isSpaceChar).reverse.dropWhile isSpaceChar).reverse

/-- One line of `git show-ref` output, as parsed by `load_refs`:
`parts := strings.SplitN(strings.TrimSpace(line), " ", 2)` and then
`parts[0]`/`parts[1]`; `none` models the index-out-of-range panic when the
line has no space. -/
def parseRefLine (line : Str) : Option Ref :=
  match splitN ' ' 2 (trimSpace line) with
  | [sha, path] => some ⟨sha, path⟩
  | _ => none

/-- The loading loop of `load_refs`: `res[ref.Name()] = ref` per line. -/
def loadRefsAux : List Str → RefMap → Option RefMap
  | [], acc => some acc
  | line :: rest, acc =>
    match parseRefLine line with
    | none => none
    | some r => loadRefsAux rest (RefMap.insert acc (Ref.Name r) r)

/-- `Repo.load_refs` from the source, on the `git show-ref` output lines:
builds the cache keyed by each ref's short `Name()`. -/
def loadRefs (lines : List Str) : Option RefMap := loadRefsAux lines []

/-- `Repo.HasRef` on a loaded cache: the comma-ok `found` of the map lookup. -/
def Repo.HasRef (refs : RefMap) (ref : Str) : Bool := (RefMap.find refs ref).isSome

/-- `Ref.RemoteBranch` from the source, on a loaded cache: returns the ref
found under `"refs/remotes/" + remote + "/" + r.Name()`, or an error. -/
def Ref.RemoteBranch (refs : RefMap) (r : Ref) (remote : Str) : Option Ref × Option GoErr :=
  if r.IsLocal then
    match RefMap.find refs ((("refs/remotes/".data)) ++ remote ++ ('/' :: Ref.Name r)) with
    | some res => (some res, none)
    | none => (none, some (GoErr.msg (r.Path ++ ((" has no remote branch at ".data)) ++ remote ++ (("\n".data)))))
  else (none, some (GoErr.msg (r.Path ++ ((" is not a branch, cannot find remote tracking branch.\n".data)))))

/-- `Ref.HasRemoteRef` from the source, on a loaded cache. -/
def Ref.HasRemoteRef (refs : RefMap) (r : Ref) (remote : Str) : Bool :=
  if r.IsLocal then Repo.HasRef refs ((("refs/remotes/".data)) ++ remote ++ ('/' :: Ref.Name r))
  else false

/-- The git config cache (`ConfigMap`), modelled as an association list. -/
abbrev ConfigMap := List (Str × Str)

/-- Modelled from the spec: `Repo.Get(key)` — the ConfigStore key/value
lookup capability (its implementation is not among the provided source
files); comma-ok map semantics, `none` = key absent. -/
def ConfigMap.get (cfg : ConfigMap) (k : Str) : Option Str :=
  (cfg.find? (fun p => p.1 == k)).map Prod.snd

/-- Modelled from the spec: `Repo.Set(key, value)` — writes one config key
(an external `git config` call, counted by `TrackRemote`'s output). -/
def ConfigMap.set (cfg : ConfigMap) (k v : Str) : ConfigMap :=
  (k, v) :: cfg.filter (fun p => !(p.1 == k))

/-- Modelled from the spec: `Repo.maybeKillSection(section)` — section-aware
delete of every key of the config section, i.e. every key having
`section + "."` as a prefix (its implementation is not among the provided
source files). -/
def ConfigMap.killSection (cfg : ConfigMap) (sec : Str) : ConfigMap :=
  cfg.filter (fun p => !((sec ++ ((".".data))).isPrefixOf p.1))

/-- Result of `Ref.TrackRemote`: the returned error, the config state after
the call, the `Set` calls issued, and the `maybeKillSection` calls issued. -/
structure TrackOut where
  err : Option GoErr
  cfg : ConfigMap
  sets : List (Str × Str)
  kills : List Str
deriving DecidableEq, Repr

/-- The config section name `"branch." + r.Name()` used by `TrackRemote`. -/
def branchSection (r : Ref) : Str := (("branch.".data)) ++ Ref.Name r

/-- `Ref.TrackRemote` from the source, over the modelled config store.  The
Go tail — `maybeKillSection` if either key exists, then the two `Set`s — is
spelled as two branches (kill issued / not issued) so that each branch is a
closed expression; the computed states are identical to the source's. -/
def Ref.TrackRemote (cfg : ConfigMap) (r : Ref) (remote : Str) : TrackOut :=
  if r.IsLocal then
    if ConfigMap.get cfg (branchSection r ++ ((".remote".data))) = some remote ∧
       ConfigMap.get cfg (branchSection r ++ ((".merge".data))) = some r.Path then
      ⟨none, cfg, [], []⟩
    else if (ConfigMap.get cfg (branchSection r ++ ((".remote".data)))).isSome ||
            (ConfigMap.get cfg (branchSection r ++ ((".merge".data)))).isSome then
      ⟨none,
       ConfigMap.set (ConfigMap.set (ConfigMap.killSection cfg (branchSection r))
         (branchSection r ++ ((".remote".data))) remote)
         (branchSection r ++ ((".merge".data))) r.Path,
       [(branchSection r ++ ((".remote".data)), remote),
        (branchSection r ++ ((".merge".data)), r.Path)],
       [branchSection r]⟩
    else
      ⟨none,
       ConfigMap.set (ConfigMap.set cfg (branchSection r ++ ((".remote".data))) remote)
         (branchSection r ++ ((".merge".data))) r.Path,
       [(branchSection r ++ ((".remote".data)), remote),
        (branchSection r ++ ((".merge".data)), r.Path)],
       []⟩
  else ⟨some (GoErr.msg (r.Path ++ ((" is not a branch, we cannot track it.".data)))), cfg, [], []⟩

/-- Result of `Ref.Contains`: the boolean answer, the error, and the external
commands invoked. -/
structure ContainsOut where
  res : Bool
  err : Option GoErr
  cmds : List (List Str)
deriving DecidableEq, Repr

/-- `Ref.Contains` from the source.  `runOk` is the oracle for the
`git rev-list other.SHA ^r.SHA` invocation succeeding, `outEmpty` for its
output being empty. -/
def Ref.Contains (r other : Ref) (runOk outEmpty : Bool) : ContainsOut :=
  if r.SHA = other.SHA then ⟨true, none, []⟩
  else
    if runOk then ⟨outEmpty, none, [[("rev-list".data), other.SHA, '^' :: r.SHA]]⟩
    else ⟨false, some GoErr.exec, [[("rev-list".data), other.SHA, '^' :: r.SHA]]⟩

/-- The `base interface{}` argument of `make_ref`: a `*Ref`, a `string`, or
anything else (the `default` case of the type switch). -/
inductive BaseArg where
  | ref : Ref → BaseArg
  | str : Str → BaseArg
  | other : BaseArg
deriving DecidableEq, Repr

/-- Result of `make_ref`: the returned ref, the error, the ref cache after the
call, and the external commands invoked. -/
structure MakeOut where
  ref : Option Ref
  err : Option GoErr
  refs : RefMap
  cmds : List (List Str)
deriving DecidableEq, Repr

/-- The create-and-reload part of `make_ref`: run `git {branch|tag} name base`;
on failure return the error with the cache untouched; on success drop the
cache and reload it from the fresh `git show-ref` output (`reloadLines`),
returning the new cache's entry for `name`.  `none` models the panic inside
the reload. -/
def makeRun (refs : RefMap) (reftype name basearg : Str) (runOk : Bool)
    (reloadLines : List Str) : Option MakeOut :=
  if runOk then
    match loadRefs reloadLines with
    | none => none
    | some m => some ⟨RefMap.find m name, none, m, [[reftype, name, basearg]]⟩
  else some ⟨none, some GoErr.exec, refs, [[reftype, name, basearg]]⟩

/-- `Repo.make_ref` from the source, on a loaded cache. -/
def make_ref (refs : RefMap) (reftype name : Str) (base : BaseArg) (runOk : Bool)
    (reloadLines : List Str) : Option MakeOut :=
  if name = ("HEAD".data) then
    some ⟨none, some (GoErr.msg ("Cannot create a branch named HEAD.".data)), refs, []⟩
  else if (RefMap.find refs name).isSome then
    some ⟨none, some (GoErr.msg (name ++ ((" already exists.".data)))), refs, []⟩
  else if ¬(reftype = ("branch".data) ∨ reftype = ("tag".data)) then
    some ⟨none, some (GoErr.msg ("Unknown ref type!".data)), refs, []⟩
  else
    match base with
    | BaseArg.ref b => makeRun refs reftype name (Ref.Name b) runOk reloadLines
    | BaseArg.str s => makeRun refs reftype name s runOk reloadLines
    | BaseArg.other => some ⟨none, some (GoErr.msg ("Unknown type for base!".data)), refs, []⟩

/-- `Repo.Branch` from the source. -/
def Repo.Branch (refs : RefMap) (name : Str) (base : BaseArg) (runOk : Bool)
    (reloadLines : List Str) : Option MakeOut :=
  make_ref refs ("branch".data) name base runOk reloadLines

/-- `Repo.Tag` from the source. -/
def Repo.Tag (refs : RefMap) (name : Str) (base : BaseArg) (runOk : Bool)
    (reloadLines : List Str) : Option MakeOut :=
  make_ref refs ("tag".data) name base runOk reloadLines

/-- `StatLine` from the source. -/
structure StatLine where
  indexStat : Str
  workStat : Str
  oldPath : Str
  newPath : Str
deriving DecidableEq, Repr

/-- The character class `[ MADRCU!?]` of `statusRE`. -/
def statusChar (c : Char) : Bool :=
  c == ' ' || c == 'M' || c == 'A' || c == 'D' || c == 'R' || c == 'C' ||
    c == 'U' || c == '?' || c == '!'

/-- `statusRE.FindStringSubmatch(line)` for the anchored pattern
`^([ MADRCU!?])([ MADRCU?!]) (.*)$`: two class characters, a space, then the
rest of the line, which must contain no newline (RE2 `.` does not match a
newline and `$` anchors at end of text). -/
def matchStatus (line : Str) : Option (Char × Char × Str) :=
  match line with
  | c1 :: c2 :: ' ' :: rest =>
    if statusChar c1 && statusChar c2 && !(rest.contains '\n') then some (c1, c2, rest)
    else none
  | _ => none

/-- `out.ReadString(0)` loop: cut the status output into NUL-terminated
records, each KEEPING its trailing NUL (Go `ReadString` includes the
delimiter); a trailing chunk with no NUL is discarded together with the
read error, exactly as the `if err != nil break` in the source. -/
def readRecordsAux : Str → Str → List Str
  | [], _ => []
  | c :: rest, acc =>
    if c = '\x00' then (('\x00' :: acc).reverse) :: readRecordsAux rest []
    else readRecordsAux rest (c :: acc)

/-- The records read by `mapStatus` from the raw `git status --porcelain -z`
output. -/
def readRecords (s : Str) : List Str := readRecordsAux s []

/-- The accumulation loop of `mapStatus`: a matching record flushes the
pending `StatLine` and starts a new one with `oldPath = newPath = path`; a
non-matching record overwrites the pending line's `newPath`; a non-matching
record with no pending line is the `panic("Cannot happen!")`, modelled as
`none`. -/
def mapStatusLoop : List Str → Option StatLine → List StatLine → Option (List StatLine)
  | [], pending, acc => some (acc ++ pending.toList)
  | line :: rest, pending, acc =>
    match matchStatus line with
    | some (c1, c2, p) => mapStatusLoop rest (some ⟨[c1], [c2], p, p⟩) (acc ++ pending.toList)
    | none =>
      match pending with
      | some st => mapStatusLoop rest (some ⟨st.indexStat, st.workStat, st.oldPath, line⟩) acc
      | none => none

/-- `Repo.mapStatus` from the source, on the raw status output bytes. -/
def Repo.mapStatus (input : Str) : Option (List StatLine) :=
  mapStatusLoop (readRecords input) none []

/-! ### Helper lemmas about the string-splitting primitives -/

lemma splitFirst_not_mem (c : Char) : ∀ (s : Str), c ∉ s → splitFirst c s = none := by
  intro s
  induction s with
  | nil => intro _; rfl
  | cons x xs ih =>
    intro h
    have hx : ¬ x = c := fun e => h (by rw [e]; exact List.mem_cons_self _ _)
    simp only [splitFirst, if_neg hx, ih (fun hc => h (List.mem_cons_of_mem _ hc)), Option.map_none']

lemma splitFirst_append (c : Char) : ∀ (a b : Str), c ∉ a → splitFirst c (a ++ c :: b) = some (a, b) := by
  intro a
  induction a with
  | nil => intro b _; simp [splitFirst]
  | cons x xs ih =>
    intro b h
    have hx : ¬ x = c := fun e => h (by rw [e]; exact List.mem_cons_self _ _)
    have hr := ih b (fun hc => h (List.mem_cons_of_mem _ hc))
    simp only [List.cons_append, splitFirst, if_neg hx, List.append_eq, hr, Option.map_some']

lemma splitFirst_eq_some (c : Char) : ∀ {s a b : Str}, splitFirst c s = some (a, b) →
    s = a ++ c :: b ∧ c ∉ a := by
  intro s
  induction s with
  | nil => intro a b h; cases h
  | cons x xs ih =>
    intro a b h
    by_cases hx : x = c
    · rw [hx] at h ⊢
      simp only [splitFirst, if_pos rfl] at h
      cases h
      exact ⟨rfl, List.not_mem_nil c⟩
    · simp only [splitFirst, if_neg hx] at h
      cases hs : splitFirst c xs with
      | none => rw [hs] at h; cases h
      | some pr =>
        rw [hs] at h
        obtain ⟨a', b'⟩ := pr
        simp only [Option.map_some'] at h
        cases h
        obtain ⟨h1, h2⟩ := ih hs
        constructor
        · rw [h1]; rfl
        · intro hc
          rcases List.mem_cons.mp hc with h3 | h3
          · exact hx h3.symm
          · exact h2 h3

lemma splitN_succ2 (c : Char) (n : Nat) (s : Str) :
    splitN c (n + 2) s = match splitFirst c s with
      | none => [s]
      | some (a, b) => a :: splitN c (n + 1) b := rfl

lemma isPrefixOf_self_append (l t : Str) : l.isPrefixOf (l ++ t) = true := by
  induction l with
  | nil => cases t <;> rfl
  | cons x xs ih => simp [List.isPrefixOf, ih]

lemma isPrefixOf_eq_append : ∀ (l s : Str), l.isPrefixOf s = true → s = l ++ s.drop l.length := by
  intro l
  induction l with
  | nil => intro s _; simp
  | cons x xs ih =>
    intro s h
    cases s with
    | nil => simp [List.isPrefixOf] at h
    | cons y ys =>
      simp only [List.isPrefixOf, Bool.and_eq_true, beq_iff_eq] at h
      obtain ⟨hxy, hpre⟩ := h
      simp only [List.length_cons, List.drop_succ_cons, List.cons_append]
      rw [← hxy]
      exact congrArg (x :: ·) (ih ys hpre)

/-! ### C1 -/

/-- C1: the raw-revision fallback of `Repo.Ref` behaves opposite to the claim
(and to the source's own comment): with an empty cache and name `"abc"`, a
SUCCEEDING `rev-parse -q --verify` run yields the `"No ref for abc"` error with
a nil ref, while a FAILING run yields the synthesized raw ref with
`SHA = Path = "abc"` and nil error.  This evaluates the code at the failing
input of the claim. -/
theorem c1_raw_fallback_inverted :
    Repo.RefLookup [] ("abc".data) true =
      ⟨none, some (GoErr.msg ("No ref for abc".data)), [revParseCmd ("abc".data)]⟩ ∧
    Repo.RefLookup [] ("abc".data) false =
      ⟨some ⟨("abc".data), ("abc".data)⟩, none, [revParseCmd ("abc".data)]⟩ :=
  ⟨by decide, by decide⟩

/-! ### C2 -/

/-- C2 counterexample: parsing the rename record `"R  new.txt\x00old.txt\x00"`
yields exactly one `StatLine`, but its `oldPath` is `"new.txt\x00"` (the path
from the status record, NUL delimiter included), not `"old.txt"`, and its
`newPath` is `"old.txt\x00"`, not `"new.txt"`. -/
theorem c2_rename_paths_counterexample :
    Repo.mapStatus ("R  new.txt\x00old.txt\x00".data) =
      some [⟨("R".data), (" ".data), ("new.txt\x00".data), ("old.txt\x00".data)⟩] ∧
    (("new.txt\x00".data) : Str) ≠ ("old.txt".data) ∧
    (("old.txt\x00".data) : Str) ≠ ("new.txt".data) :=
  ⟨by decide, by decide, by decide⟩

/-- C2 amended: parsing the status input `"R  new.txt\x00old.txt\x00"` yields
exactly one `StatLine` with `indexStat = "R"`, `workStat = " "`,
`oldPath = "new.txt\x00"` (the path of the status record, with the trailing
NUL kept by `ReadString`) and `newPath = "old.txt\x00"` (the following raw
record, with its NUL). -/
theorem c2_rename_parse_amended :
    Repo.mapStatus ("R  new.txt\x00old.txt\x00".data) =
      some [⟨("R".data), (" ".data), ("new.txt\x00".data), ("old.txt\x00".data)⟩] := by
  decide

/-! ### C4 -/

/-- C4 counterexample: for the remote-tracking ref with Path
`"refs/remotes/origin/main"`, `Name()` returns `"origin/main"`, which is not
the last path segment `"main"`. -/
theorem c4_name_counterexample :
    Ref.Name ⟨("cafebabe".data), ("refs/remotes/origin/main".data)⟩ = ("origin/main".data) ∧
    (("origin/main".data) : Str) ≠ ("main".data) :=
  ⟨by decide, by decide⟩

/-- C4 amended: `Name()` returns the path with at most its first two
slash-separated segments stripped (the third field of `SplitN(Path, "/", 3)`):
for a path `a/b/rest` with slash-free `a` and `b` it returns all of `rest`
(so for `refs/remotes/<remote>/<branch>` it returns `<remote>/<branch>`, not
`<branch>`); only for paths of at most three segments is this the last
segment. -/
theorem c4_name_amended (sha a b rest : Str) (ha : '/' ∉ a) (hb : '/' ∉ b) :
    Ref.Name ⟨sha, a ++ ('/' :: (b ++ ('/' :: rest)))⟩ = rest ∧
    Ref.Name ⟨sha, a ++ ('/' :: b)⟩ = b ∧
    Ref.Name ⟨sha, a⟩ = a := by
  refine ⟨?_, ?_, ?_⟩
  · show lastElemD (splitN '/' 3 (a ++ ('/' :: (b ++ ('/' :: rest))))) [] = rest
    rw [splitN_succ2, splitFirst_append '/' a _ ha]
    show lastElemD (a :: splitN '/' 2 (b ++ ('/' :: rest))) [] = rest
    rw [splitN_succ2, splitFirst_append '/' b rest hb]
    rfl
  · show lastElemD (splitN '/' 3 (a ++ ('/' :: b))) [] = b
    rw [splitN_succ2, splitFirst_append '/' a b ha]
    show lastElemD (a :: splitN '/' 2 b) [] = b
    rw [splitN_succ2, splitFirst_not_mem '/' b hb]
    rfl
  · show lastElemD (splitN '/' 3 a) [] = a
    rw [splitN_succ2, splitFirst_not_mem '/' a ha]
    rfl

/-- Witness for C4's amended theorem at `Path = "refs/remotes/origin/main"`. -/
theorem c4_name_amended_witness :
    Ref.Name ⟨("x".data), (("refs".data) ++ ('/' :: (("remotes".data) ++ ('/' :: ("origin/main".data)))))⟩ =
      ("origin/main".data) :=
  (c4_name_amended ("x".data) ("refs".data) ("remotes".data) ("origin/main".data)
    (by decide) (by decide)).1

/-! ### C9 -/

/-- C9: for every ref `r`, `r.Contains(r)` returns `(true, nil)` without
issuing any external revision-range query, whatever the external oracle would
have answered. -/
theorem c9_contains_reflexive (r : Ref) (runOk outEmpty : Bool) :
    Ref.Contains r r runOk outEmpty = ⟨true, none, []⟩ := by
  unfold Ref.Contains
  rw [if_pos rfl]

/-! ### C10 -/

/-- C10: `Delete()` on a ref that is none of remote, HEAD, tag, or local —
such as a raw ref synthesized by `Repo.Ref` whose `Path` is not `"HEAD"` and
has no `refs/` prefix — reaches the `panic("Cannot happen!")` branch
(modelled as `none`) instead of returning an error. -/
theorem c10_delete_unclassified_panics (r : Ref) (refs : RefMap) (runOk : Bool)
    (h1 : r.IsRemote = false) (h2 : r.IsHead = false) (h3 : r.IsTag = false)
    (h4 : r.IsLocal = false) :
    Ref.Delete r refs runOk = none := by
  unfold Ref.Delete
  rw [h1, h2, h3, h4]
  simp

/-- Witness for C10 at the raw ref `SHA = Path = "deadbeef"`. -/
theorem c10_delete_unclassified_panics_witness :
    Ref.Delete ⟨("deadbeef".data), ("deadbeef".data)⟩ [] true = none :=
  c10_delete_unclassified_panics ⟨("deadbeef".data), ("deadbeef".data)⟩ [] true
    (by decide) (by decide) (by decide) (by decide)

/-! ### C5 -/

/-- C5: `Repo.Ref` tries the cache lookups in exactly the priority order
(a) bare name, (b) `"refs/heads/" + name`, (c) `"refs/tags" + name`
(un-joined concatenation, no slash), (d) `"refs/remotes" + name` (likewise
un-joined), returning the first hit with nil error and no external command;
in particular when the cache holds both a ref under the bare key `"foo"` and
one under `"refs/heads/foo"`, `Ref("foo")` returns the one under the bare
key. -/
theorem c5_resolution_priority (refs : RefMap) (name : Str) (runOk : Bool) :
    (∀ r, RefMap.find refs name = some r →
       Repo.RefLookup refs name runOk = ⟨some r, none, []⟩) ∧
    (∀ r, RefMap.find refs name = none →
       RefMap.find refs (("refs/heads/".data) ++ name) = some r →
       Repo.RefLookup refs name runOk = ⟨some r, none, []⟩) ∧
    (∀ r, RefMap.find refs name = none →
       RefMap.find refs (("refs/heads/".data) ++ name) = none →
       RefMap.find refs (("refs/tags".data) ++ name) = some r →
       Repo.RefLookup refs name runOk = ⟨some r, none, []⟩) ∧
    (∀ r, RefMap.find refs name = none →
       RefMap.find refs (("refs/heads/".data) ++ name) = none →
       RefMap.find refs (("refs/tags".data) ++ name) = none →
       RefMap.find refs (("refs/remotes".data) ++ name) = some r →
       Repo.RefLookup refs name runOk = ⟨some r, none, []⟩) ∧
    (∀ r1 r2, RefMap.find refs ("foo".data) = some r1 →
       RefMap.find refs ("refs/heads/foo".data) = some r2 →
       Repo.RefLookup refs ("foo".data) runOk = ⟨some r1, none, []⟩) := by
  have step1 : ∀ nm r, RefMap.find refs nm = some r →
      Repo.RefLookup refs nm runOk = ⟨some r, none, []⟩ := by
    intro nm r h
    simp only [Repo.RefLookup, refPfxs, findSomeRef, List.nil_append, h]
  refine ⟨step1 name, ?_, ?_, ?_, ?_⟩
  · intro r h0 h1
    simp only [Repo.RefLookup, refPfxs, findSomeRef, List.nil_append, h0, h1]
  · intro r h0 h1 h2
    simp only [Repo.RefLookup, refPfxs, findSomeRef, List.nil_append, h0, h1, h2]
  · intro r h0 h1 h2 h3
    simp only [Repo.RefLookup, refPfxs, findSomeRef, List.nil_append, h0, h1, h2, h3]
  · intro r1 r2 h1 _
    exact step1 ("foo".data) r1 h1

/-- Witness for C5: a cache holding both a raw ref under the bare key `"foo"`
and a branch under `"refs/heads/foo"`; resolving `"foo"` returns the raw
ref. -/
theorem c5_resolution_priority_witness :
    Repo.RefLookup
      [(("foo".data), ⟨("aaa".data), ("foo".data)⟩),
       (("refs/heads/foo".data), ⟨("bbb".data), ("refs/heads/foo".data)⟩)]
      ("foo".data) true = ⟨some ⟨("aaa".data), ("foo".data)⟩, none, []⟩ :=
  (c5_resolution_priority
      [(("foo".data), ⟨("aaa".data), ("foo".data)⟩),
       (("refs/heads/foo".data), ⟨("bbb".data), ("refs/heads/foo".data)⟩)]
      ("foo".data) true).2.2.2.2
    ⟨("aaa".data), ("foo".data)⟩ ⟨("bbb".data), ("refs/heads/foo".data)⟩
    (by decide) (by decide)

/-! ### C6 -/

/-- C6: `Delete()` on a ref whose `Path` is `"HEAD"` or on a ref classified
remote returns the corresponding descriptive error, invokes no external
command, and leaves the ref cache unchanged (whatever the command oracle
would have answered). -/
theorem c6_delete_guards (r : Ref) (refs : RefMap) (runOk : Bool)
    (h : r.IsHead = true ∨ r.IsRemote = true) :
    Ref.Delete r refs runOk =
      some ⟨some (GoErr.msg (if r.IsRemote then ("Cannot delete a remote ref!".data)
                             else ("Cannot delete HEAD!".data))), refs, []⟩ := by
  rcases h with h | h
  · have hp : r.Path = ("HEAD".data) := by
      have h' := h
      simp only [Ref.IsHead, beq_iff_eq] at h'
      exact h'
    have hrem : r.IsRemote = false := by
      simp only [Ref.IsRemote, hp]
      decide
    unfold Ref.Delete
    rw [hrem, h]
    simp
  · unfold Ref.Delete
    rw [h]
    simp

/-- Witness for C6 at the HEAD ref. -/
theorem c6_delete_guards_witness :
    Ref.Delete ⟨("abc".data), ("HEAD".data)⟩ [] true =
      some ⟨some (GoErr.msg ("Cannot delete HEAD!".data)), [], []⟩ := by
  have h := c6_delete_guards ⟨("abc".data), ("HEAD".data)⟩ [] true (Or.inl (by decide))
  rw [h]
  decide

/-! ### C7 -/

/-- C7: `make_ref` (and with it `Branch` and `Tag`, which are `make_ref` at
`"branch"`/`"tag"`) returns the reserved-name error for `name = "HEAD"`, and
the already-exists error for a name that is a key of the loaded cache (the
reserved-name check runs first, so the already-exists conjunct carries
`name ≠ "HEAD"`); in both cases no external command is invoked and the cache
is returned as loaded. -/
theorem c7_make_ref_guards (refs : RefMap) (reftype : Str) (base : BaseArg)
    (runOk : Bool) (reloadLines : List Str) :
    (make_ref refs reftype ("HEAD".data) base runOk reloadLines =
       some ⟨none, some (GoErr.msg ("Cannot create a branch named HEAD.".data)), refs, []⟩) ∧
    (∀ name, name ≠ ("HEAD".data) → (RefMap.find refs name).isSome = true →
       make_ref refs reftype name base runOk reloadLines =
         some ⟨none, some (GoErr.msg (name ++ ((" already exists.".data)))), refs, []⟩) ∧
    (∀ name, Repo.Branch refs name base runOk reloadLines =
       make_ref refs ("branch".data) name base runOk reloadLines) ∧
    (∀ name, Repo.Tag refs name base runOk reloadLines =
       make_ref refs ("tag".data) name base runOk reloadLines) := by
  refine ⟨?_, ?_, fun _ => rfl, fun _ => rfl⟩
  · unfold make_ref
    rw [if_pos rfl]
  · intro name hne hsome
    unfold make_ref
    rw [hsome]
    simp [hne]

/-- Witness for C7: creating `"main"` when the loaded cache already has key
`"main"` yields the already-exists error, no command, cache as loaded. -/
theorem c7_make_ref_guards_witness :
    make_ref [(("main".data), ⟨("aaa".data), ("refs/heads/main".data)⟩)]
      ("branch".data) ("main".data) BaseArg.other true [] =
      some ⟨none, some (GoErr.msg ((("main".data) ++ ((" already exists.".data))))),
        [(("main".data), ⟨("aaa".data), ("refs/heads/main".data)⟩)], []⟩ :=
  (c7_make_ref_guards [(("main".data), ⟨("aaa".data), ("refs/heads/main".data)⟩)]
      ("branch".data) BaseArg.other true []).2.1
    ("main".data) (by decide) (by decide)

/-! ### C3 -/

/-- A ref path of the standard forms of the claim: the literal `"HEAD"`, or
`"refs/<type>/<name>"` with a slash-free `<type>` segment and a `<name>` that
does not itself start with `"refs/"` (i.e. no pathological ref literally
named like a fully-qualified ref). -/
def standardPathB (p : Str) : Bool :=
  p == ("HEAD".data) ||
    ((("refs/".data)).isPrefixOf p &&
      match splitFirst '/' (p.drop 5) with
      | some (_, rest) => !((("refs/".data)).isPrefixOf rest)
      | none => false)

lemma loadRefsAux_inv (lines : List Str) : ∀ (acc m : RefMap),
    loadRefsAux lines acc = some m → (∀ p ∈ acc, p.1 = Ref.Name p.2) →
    ∀ p ∈ m, p.1 = Ref.Name p.2 := by
  induction lines with
  | nil =>
    intro acc m h hacc
    simp only [loadRefsAux, Option.some.injEq] at h
    rw [← h]
    exact hacc
  | cons line rest ih =>
    intro acc m h hacc
    simp only [loadRefsAux] at h
    cases hp : parseRefLine line with
    | none => rw [hp] at h; cases h
    | some r =>
      rw [hp] at h
      refine ih _ m h ?_
      intro p hpmem
      simp only [RefMap.insert] at hpmem
      rcases List.mem_cons.mp hpmem with h1 | h1
      · rw [h1]
      · exact hacc p h1

lemma refMap_find_eq (m : RefMap) (k : Str) (v : Ref) (h : RefMap.find m k = some v) :
    (k, v) ∈ m := by
  unfold RefMap.find at h
  cases hf : List.find? (fun p => p.1 == k) m with
  | none => rw [hf] at h; cases h
  | some pr =>
    rw [hf] at h
    simp only [Option.map_some', Option.some.injEq] at h
    have hm : pr ∈ m := List.mem_of_find?_eq_some hf
    have hp := List.find?_some hf
    have hk : pr.1 = k := by simpa using hp
    have he : (k, v) = pr := by
      rw [← hk, ← h]
    rw [he]
    exact hm

lemma standard_name_not_refs (v : Ref) (h : standardPathB v.Path = true) :
    (("refs/".data)).isPrefixOf (Ref.Name v) = false := by
  unfold standardPathB at h
  rw [Bool.or_eq_true] at h
  rcases h with h | h
  · have hp : v.Path = ("HEAD".data) := by simpa using h
    unfold Ref.Name
    rw [hp]
    decide
  · rw [Bool.and_eq_true] at h
    obtain ⟨h1, h2⟩ := h
    cases hsp : splitFirst '/' (v.Path.drop 5) with
    | none => rw [hsp] at h2; cases h2
    | some tr =>
      obtain ⟨t, rest⟩ := tr
      rw [hsp] at h2
      have h2' : (("refs/".data)).isPrefixOf rest = false := by
        simpa using h2
      have hpath : v.Path = ("refs/".data) ++ v.Path.drop 5 :=
        isPrefixOf_eq_append ("refs/".data) v.Path h1
      obtain ⟨hq, hnt⟩ := splitFirst_eq_some '/' hsp
      unfold Ref.Name
      rw [hpath, hq]
      have hsf : splitFirst '/' (("refs/".data) ++ (t ++ '/' :: rest)) =
          some (("refs".data), t ++ '/' :: rest) :=
        splitFirst_append '/' ("refs".data) (t ++ '/' :: rest) (by decide)
      rw [splitN_succ2, hsf]
      show (("refs/".data)).isPrefixOf (lastElemD (("refs".data) :: splitN '/' 2 (t ++ '/' :: rest)) []) = false
      rw [splitN_succ2, splitFirst_append '/' t rest hnt]
      show (("refs/".data)).isPrefixOf rest = false
      exact h2'

/-- C3: a cache populated by `load_refs` is keyed by each loaded ref's short
`Name()`; consequently, when every loaded ref's path has one of the standard
forms (`"HEAD"` or `"refs/<type>/..."`), no cache key starts with `"refs/"`,
so for every local ref `r` and remote string, `r.RemoteBranch(remote)` —
which looks up the fully-qualified key `"refs/remotes/" + remote + "/" +
r.Name()` — returns the no-remote-branch error, and `r.HasRemoteRef(remote)`
returns `false`. -/
theorem c3_cache_keyed_by_short_names (lines : List Str) (m : RefMap)
    (hload : loadRefs lines = some m)
    (hstd : ∀ p ∈ m, standardPathB (p.2).Path = true)
    (r : Ref) (remote : Str) (hr : r.IsLocal = true) :
    (∀ k v, RefMap.find m k = some v → k = Ref.Name v) ∧
    Ref.RemoteBranch m r remote =
      (none, some (GoErr.msg (r.Path ++ ((" has no remote branch at ".data)) ++ remote ++ (("\n".data))))) ∧
    Ref.HasRemoteRef m r remote = false := by
  have hinv : ∀ p ∈ m, p.1 = Ref.Name p.2 :=
    loadRefsAux_inv lines [] m hload (by intro p hp; cases hp)
  have hkeys : ∀ k v, RefMap.find m k = some v → k = Ref.Name v := by
    intro k v hf
    exact hinv (k, v) (refMap_find_eq m k v hf)
  have hnone : RefMap.find m ((("refs/remotes/".data)) ++ remote ++ ('/' :: Ref.Name r)) = none := by
    cases hf : RefMap.find m ((("refs/remotes/".data)) ++ remote ++ ('/' :: Ref.Name r)) with
    | none => rfl
    | some v =>
      exfalso
      have hk := hkeys _ v hf
      have hmem := refMap_find_eq m _ v hf
      have hnp := standard_name_not_refs v (hstd _ hmem)
      rw [← hk] at hnp
      have hyp : (("refs/".data)).isPrefixOf ((("refs/remotes/".data)) ++ remote ++ ('/' :: Ref.Name r)) = true :=
        isPrefixOf_self_append ("refs/".data) (("remotes/".data) ++ remote ++ ('/' :: Ref.Name r))
      rw [hnp] at hyp
      exact Bool.false_ne_true hyp
  refine ⟨hkeys, ?_, ?_⟩
  · unfold Ref.RemoteBranch
    rw [hr, hnone]
    simp
  · unfold Ref.HasRemoteRef Repo.HasRef
    rw [hr, hnone]
    simp

/-- Witness for C3: a repository with a branch `main` and a remote-tracking
ref `refs/remotes/origin/main`; even though the remote ref was loaded, it is
cached under its short name `"origin/main"`, so `HasRemoteRef("origin")` on
the branch is `false`. -/
theorem c3_cache_keyed_by_short_names_witness :
    Ref.HasRemoteRef
      [(("origin/main".data), ⟨("cafebabe".data), ("refs/remotes/origin/main".data)⟩),
       (("main".data), ⟨("deadbeef".data), ("refs/heads/main".data)⟩)]
      ⟨("deadbeef".data), ("refs/heads/main".data)⟩ ("origin".data) = false :=
  (c3_cache_keyed_by_short_names
      [("deadbeef refs/heads/main".data), ("cafebabe refs/remotes/origin/main".data)]
      [(("origin/main".data), ⟨("cafebabe".data), ("refs/remotes/origin/main".data)⟩),
       (("main".data), ⟨("deadbeef".data), ("refs/heads/main".data)⟩)]
      (by decide) (by decide)
      ⟨("deadbeef".data), ("refs/heads/main".data)⟩ ("origin".data) (by decide)).2.2

/-! ### C8 -/

lemma cfg_get_set_same (cfg : ConfigMap) (k v : Str) :
    ConfigMap.get (ConfigMap.set cfg k v) k = some v := by
  simp [ConfigMap.get, ConfigMap.set, List.find?]

lemma cfg_find_filter_ne (cfg : ConfigMap) (k k' : Str) (h : ¬ k' = k) :
    List.find? (fun p => p.1 == k') (cfg.filter (fun p => !(p.1 == k))) =
    List.find? (fun p => p.1 == k') cfg := by
  induction cfg with
  | nil => rfl
  | cons q cfg ih =>
    by_cases hq : q.1 = k
    · have h1 : (q.1 == k) = true := by simp [hq]
      have h2 : (q.1 == k') = false := by
        rw [beq_eq_false_iff_ne, hq]
        intro e
        exact h e.symm
      simp [List.filter_cons, List.find?, h1, h2, ih]
    · have h1 : (q.1 == k) = false := beq_eq_false_iff_ne.mpr hq
      by_cases hk' : q.1 = k'
      · have h2 : (q.1 == k') = true := by simp [hk']
        simp [List.filter_cons, List.find?, h1, h2]
      · have h2 : (q.1 == k') = false := beq_eq_false_iff_ne.mpr hk'
        simp [List.filter_cons, List.find?, h1, h2, ih]

lemma cfg_get_set_ne (cfg : ConfigMap) (k k' v : Str) (h : ¬ k' = k) :
    ConfigMap.get (ConfigMap.set cfg k v) k' = ConfigMap.get cfg k' := by
  unfold ConfigMap.get ConfigMap.set
  have h2 : ((k : Str) == k') = false := beq_eq_false_iff_ne.mpr (fun e => h e.symm)
  simp only [List.find?, h2]
  rw [cfg_find_filter_ne cfg k k' h]

lemma track_keys_ne (r : Ref) :
    ¬ (branchSection r ++ ((".merge".data)) = branchSection r ++ ((".remote".data))) := by
  intro e
  have e1 := List.append_cancel_left e
  exact absurd e1 (by decide)

/-- C8: `TrackRemote` is an idempotent write: (i) if the config already maps
`branch.<name>.remote` to the remote and `branch.<name>.merge` to the ref's
path, the call performs no `Set`, no section kill, and returns nil with the
config unchanged; (ii) otherwise, if either key exists, it kills the
`branch.<name>` section and then writes both keys fresh; (iii) consequently a
second call right after a first one (state unchanged in between) performs no
external call at all. -/
theorem c8_track_remote_idempotent (cfg : ConfigMap) (r : Ref) (remote : Str)
    (hr : r.IsLocal = true) :
    (ConfigMap.get cfg (branchSection r ++ ((".remote".data))) = some remote ∧
     ConfigMap.get cfg (branchSection r ++ ((".merge".data))) = some r.Path →
     Ref.TrackRemote cfg r remote = ⟨none, cfg, [], []⟩) ∧
    (¬(ConfigMap.get cfg (branchSection r ++ ((".remote".data))) = some remote ∧
       ConfigMap.get cfg (branchSection r ++ ((".merge".data))) = some r.Path) →
     ((ConfigMap.get cfg (branchSection r ++ ((".remote".data)))).isSome = true ∨
      (ConfigMap.get cfg (branchSection r ++ ((".merge".data)))).isSome = true) →
     Ref.TrackRemote cfg r remote =
       ⟨none,
        ConfigMap.set (ConfigMap.set (ConfigMap.killSection cfg (branchSection r))
          (branchSection r ++ ((".remote".data))) remote)
          (branchSection r ++ ((".merge".data))) r.Path,
        [(branchSection r ++ ((".remote".data)), remote),
         (branchSection r ++ ((".merge".data)), r.Path)],
        [branchSection r]⟩) ∧
    (Ref.TrackRemote (Ref.TrackRemote cfg r remote).cfg r remote =
       ⟨none, (Ref.TrackRemote cfg r remote).cfg, [], []⟩) := by
  have hmain : ∀ (c : ConfigMap),
      ConfigMap.get c (branchSection r ++ ((".remote".data))) = some remote →
      ConfigMap.get c (branchSection r ++ ((".merge".data))) = some r.Path →
      Ref.TrackRemote c r remote = ⟨none, c, [], []⟩ := by
    intro c h1 h2
    unfold Ref.TrackRemote
    rw [hr, h1, h2]
    simp
  have hkRM : ¬ (branchSection r ++ ((".remote".data)) = branchSection r ++ ((".merge".data))) :=
    fun e => track_keys_ne r e.symm
  have hsec : ∀ (x : ConfigMap),
      ConfigMap.get (ConfigMap.set (ConfigMap.set x (branchSection r ++ ((".remote".data))) remote)
        (branchSection r ++ ((".merge".data))) r.Path) (branchSection r ++ ((".remote".data))) = some remote ∧
      ConfigMap.get (ConfigMap.set (ConfigMap.set x (branchSection r ++ ((".remote".data))) remote)
        (branchSection r ++ ((".merge".data))) r.Path) (branchSection r ++ ((".merge".data))) = some r.Path := by
    intro x
    constructor
    · rw [cfg_get_set_ne _ _ _ _ hkRM]
      exact cfg_get_set_same _ _ _
    · exact cfg_get_set_same _ _ _
  refine ⟨fun h => hmain cfg h.1 h.2, ?_, ?_⟩
  · intro hne hex
    have hex' : ((ConfigMap.get cfg (branchSection r ++ ((".remote".data)))).isSome ||
        (ConfigMap.get cfg (branchSection r ++ ((".merge".data)))).isSome) = true := by
      rcases hex with h | h <;> simp [h]
    unfold Ref.TrackRemote
    rw [hr, if_neg hne, hex']
    simp
  · by_cases hc : ConfigMap.get cfg (branchSection r ++ ((".remote".data))) = some remote ∧
        ConfigMap.get cfg (branchSection r ++ ((".merge".data))) = some r.Path
    · rw [hmain cfg hc.1 hc.2]
      exact hmain cfg hc.1 hc.2
    · by_cases hk : ((ConfigMap.get cfg (branchSection r ++ ((".remote".data)))).isSome ||
          (ConfigMap.get cfg (branchSection r ++ ((".merge".data)))).isSome) = true
      · have e1 : Ref.TrackRemote cfg r remote =
            ⟨none,
             ConfigMap.set (ConfigMap.set (ConfigMap.killSection cfg (branchSection r))
               (branchSection r ++ ((".remote".data))) remote)
               (branchSection r ++ ((".merge".data))) r.Path,
             [(branchSection r ++ ((".remote".data)), remote),
              (branchSection r ++ ((".merge".data)), r.Path)],
             [branchSection r]⟩ := by
          unfold Ref.TrackRemote
          rw [hr, if_neg hc, hk]
          simp
        rw [e1]
        exact hmain _ (hsec _).1 (hsec _).2
      · have hk' : ((ConfigMap.get cfg (branchSection r ++ ((".remote".data)))).isSome ||
            (ConfigMap.get cfg (branchSection r ++ ((".merge".data)))).isSome) = false := by
          simpa using hk
        have e1 : Ref.TrackRemote cfg r remote =
            ⟨none,
             ConfigMap.set (ConfigMap.set cfg (branchSection r ++ ((".remote".data))) remote)
               (branchSection r ++ ((".merge".data))) r.Path,
             [(branchSection r ++ ((".remote".data)), remote),
              (branchSection r ++ ((".merge".data)), r.Path)],
             []⟩ := by
          unfold Ref.TrackRemote
          rw [hr, if_neg hc, hk']
          simp
        rw [e1]
        exact hmain _ (hsec _).1 (hsec _).2

/-- Witness for C8: tracking `origin` from an empty config performs the two
`Set` writes; immediately repeating the call with the resulting config is a
pure no-op (no writes, no kill, config unchanged). -/
theorem c8_track_remote_idempotent_witness :
    Ref.TrackRemote (Ref.TrackRemote [] ⟨("a".data), ("refs/heads/main".data)⟩ ("origin".data)).cfg
      ⟨("a".data), ("refs/heads/main".data)⟩ ("origin".data) =
    ⟨none, (Ref.TrackRemote [] ⟨("a".data), ("refs/heads/main".data)⟩ ("origin".data)).cfg, [], []⟩ :=
  (c8_track_remote_idempotent [] ⟨("a".data), ("refs/heads/main".data)⟩ ("origin".data)
    (by decide)).2.2
